import Mathlib

/-!
Verification of the subp2p-explorer authority-discovery CLI and the
notifications connection handler, shallowly embedded from
`cli/src/commands/authorities.rs` and
`subp2p-explorer/src/notifications/handler.rs`.

Bytes are modelled as `Nat`, byte strings as `List Nat`.  External
libraries (protobuf via prost, schnorrkel sr25519, libp2p public keys,
Blake2b, Base58, SHA2-256) are modelled as abstract oracle functions
gathered in `CryptoOracle` / `Env`: every theorem quantifies over them,
and counterexamples instantiate them with concrete values that the real
libraries can produce.  The SCALE decoding of `[u8; 64]`
(parity-scale-codec) is modelled concretely because its semantics —
read exactly 64 bytes off the front of the input, ignore the rest —
decides claim C4.
-/

/-- Bytes of an sr25519 public key (`sr25519::PublicKey = [u8; 32]`);
length is irrelevant to the properties proved here, so it is not constrained. -/
abbrev Pub := List Nat

/-- A segment of a libp2p multiaddress.  Only the distinction between a
terminal `P2p(peer)` segment and any other segment matters to the source. -/
inductive MSeg where
  | p2p (peer : Nat)
  | seg (tag : Nat)
deriving DecidableEq, Repr

/-- A libp2p `Multiaddr`: its stack of protocol segments. -/
abbrev Multiaddr := List MSeg

/-- Source `get_peer_id`: the peer id of the last protocol segment, when it
is a `P2p` segment. -/
def get_peer_id (address : Multiaddr) : Option Nat :=
  match address.getLast? with
  | some (MSeg.p2p key) => some key
  | _ => none

/-- Protobuf `PeerSignature` message (field of `SignedAuthorityRecord`). -/
structure PeerSignature where
  public_key : List Nat
  signature : List Nat
deriving DecidableEq, Repr

/-- Protobuf `SignedAuthorityRecord` message (authority_discovery v2 schema). -/
structure SignedAuthorityRecord where
  record : List Nat
  auth_signature : List Nat
  peer_signature : Option PeerSignature
deriving DecidableEq, Repr

/-- Oracle bundle for the external cryptographic and codec libraries used by
`decode_dht_record`.  `decodeSigned` and `decodeAuthorityRecord` stand for the
prost protobuf decoders, `parseMultiaddr` for `TryFrom<Vec<u8>> for Multiaddr`,
`sr25519Verify` for `sr25519::verify` (schnorrkel, context `"substrate"`),
`decodePublicKey`/`toPeerId`/`pkVerify` for the libp2p public-key operations. -/
structure CryptoOracle where
  decodeSigned : List Nat → Option SignedAuthorityRecord
  decodeAuthorityRecord : List Nat → Option (List (List Nat))
  parseMultiaddr : List Nat → Option Multiaddr
  sr25519Verify : List Nat → List Nat → Pub → Bool
  decodePublicKey : List Nat → Option Nat
  toPeerId : Nat → Nat
  pkVerify : Nat → List Nat → List Nat → Bool

/-- Modelled from parity-scale-codec: `<[u8; 64] as Decode>::decode` on a byte
slice reads exactly 64 bytes from the front and leaves any remaining input
untouched; it fails only when fewer than 64 bytes are available. -/
def scaleDecodeSig64 (bytes : List Nat) : Except String (List Nat) :=
  if 64 ≤ bytes.length then Except.ok (bytes.take 64)
  else Except.error "signature decode failed"

/-- Source `.map(try_into).collect::<Result<_, _>>()` over the raw address
byte strings: parse each multiaddress, failing on the first invalid one. -/
def parseAddrs (oracle : CryptoOracle) : List (List Nat) → Except String (List Multiaddr)
  | [] => Except.ok []
  | raw :: rest =>
    match oracle.parseMultiaddr raw with
    | none => Except.error "invalid multiaddress"
    | some addr =>
      match parseAddrs oracle rest with
      | Except.error e => Except.error e
      | Except.ok addrs => Except.ok (addr :: addrs)

/-- Source `decode_dht_record`: decode the outer `SignedAuthorityRecord`,
SCALE-decode and verify `auth_signature` over `record`, decode the inner
`AuthorityRecord` into multiaddresses, require at least one address and a
single terminal peer id among the addresses, then require and verify the
peer signature.  The distinct terminal peer ids (the Rust `HashSet`) are
modelled as `(addresses.filterMap get_peer_id).dedup`. -/
def decode_dht_record (oracle : CryptoOracle) (value : List Nat)
    (authority_id : Pub) : Except String (Nat × List Multiaddr) :=
  match oracle.decodeSigned value with
  | none => Except.error "outer decode failed"
  | some payload =>
    match scaleDecodeSig64 payload.auth_signature with
    | Except.error e => Except.error e
    | Except.ok auth_signature =>
      if ¬ oracle.sr25519Verify auth_signature payload.record authority_id then
        Except.error "Cannot verify DHT payload"
      else
        match oracle.decodeAuthorityRecord payload.record with
        | none => Except.error "inner decode failed"
        | some raws =>
          match parseAddrs oracle raws with
          | Except.error e => Except.error e
          | Except.ok addresses =>
            if addresses.isEmpty then
              Except.error "No addresses found in the DHT record"
            else
              match (addresses.filterMap get_peer_id).dedup with
              | [peer_id] =>
                match payload.peer_signature with
                | none => Except.error "Payload is not signed"
                | some peer_signature =>
                  match oracle.decodePublicKey peer_signature.public_key with
                  | none => Except.error "public key decode failed"
                  | some public_key =>
                    if peer_id ≠ oracle.toPeerId public_key then
                      Except.error "PeerId does not match the public key"
                    else if ¬ oracle.pkVerify public_key payload.record peer_signature.signature then
                      Except.error "Peer signature verification failed"
                    else
                      Except.ok (peer_id, addresses)
              | _ => Except.error "All addresses must point to the same peerId"

/-! ## Small map and set helpers (HashMap / HashSet on lists) -/

/-- Rust `HashMap::get`: look up a key in an association list. -/
def lookupA {α β : Type} [DecidableEq α] (m : List (α × β)) (k : α) : Option β :=
  match m with
  | [] => none
  | (k0, v0) :: rest => if k0 = k then some v0 else lookupA rest k

/-- Rust `HashMap::insert`: replace the binding of `k` or add a new one. -/
def insertA {α β : Type} [DecidableEq α] (k : α) (v : β) (m : List (α × β)) :
    List (α × β) :=
  match m with
  | [] => [(k, v)]
  | (k0, v0) :: rest => if k0 = k then (k, v) :: rest else (k0, v0) :: insertA k v rest

/-- Rust `HashMap::remove`: drop the binding of `k`, if any. -/
def eraseA {α β : Type} [DecidableEq α] (k : α) (m : List (α × β)) : List (α × β) :=
  match m with
  | [] => []
  | (k0, v0) :: rest => if k0 = k then rest else (k0, v0) :: eraseA k rest

/-- Rust `HashSet::extend`: insert each element of `xs` into the set `s`
(sets are lists without duplicates; new elements go to the back, which is one
realizable HashSet iteration order). -/
def setExtend {α : Type} [DecidableEq α] (s : List α) (xs : List α) : List α :=
  xs.foldl (fun acc x => if x ∈ acc then acc else acc ++ [x]) s

/-! ## Authority discovery engine -/

/-- Identify protocol information for a peer; the source only ever reads
`agent_version` from `libp2p::identify::Info`. -/
structure Info where
  agent_version : String
deriving DecidableEq, Repr

/-- Source `PeerDetails`: authority id plus the addresses discovered from
the DHT. -/
structure PeerDetails where
  authority_id : Pub
  addresses : List Multiaddr
deriving DecidableEq, Repr

/-- Source `MAX_QUERIES`: the maximum number of in-flight `get-record`
queries. -/
def MAX_QUERIES : Nat := 8

/-- Source `MAX_DISCOVERY_QUERIES` (local to `query_peer_info`): the maximum
number of in-flight `get-closest-peers` queries. -/
def MAX_DISCOVERY_QUERIES : Nat := 32

/-- State of `AuthorityDiscovery` (the swarm handle, timers and log clock are
not data the claims are about; the swarm's allocation of fresh `QueryId`s is
modelled by the counter `nextQueryId`). -/
structure EngineState where
  queries : List (Nat × Pub)
  queries_discovery : List Nat
  records_keys : List (Nat × Pub)
  peer_details : List (Nat × PeerDetails)
  peer_info : List (Nat × Info)
  authority_to_details : List (Pub × List Multiaddr)
  authorities : List Pub
  query_index : Nat
  dht_errors : Nat
  remaining_authorities : List Pub
  finished_query : Bool
  nextQueryId : Nat
deriving DecidableEq, Repr

/-- Environment of the engine: the crypto/codec oracles, the SHA2-256
authority-id hash (`hash_authority_id`, abstract digest) and the uniform
shuffle of `resubmit_remaining_dht_queries` (abstract reordering). -/
structure Env where
  crypto : CryptoOracle
  hashAuth : Pub → Nat
  shuffle : List Pub → List Pub

/-- Source `AuthorityDiscovery::new`: empty maps, `remaining_authorities`
collected from the authority list, `query_index = 0`. -/
def EngineState.new (authorities : List Pub) : EngineState :=
  { queries := []
    queries_discovery := []
    records_keys := []
    peer_details := []
    peer_info := []
    authority_to_details := []
    authorities := authorities
    query_index := 0
    dht_errors := 0
    remaining_authorities := setExtend [] authorities
    finished_query := false
    nextQueryId := 0 }

/-- Source `query_dht_records`: for each authority, record
`records_keys[hash(authority)] = authority`, issue `get_record` (a fresh
`QueryId` from the swarm) and record `queries[id] = authority`. -/
def query_dht_records (env : Env) (s : EngineState) : List Pub → EngineState
  | [] => s
  | authority :: rest =>
    let key := env.hashAuth authority
    let s1 := { s with records_keys := insertA key authority s.records_keys }
    let id := s1.nextQueryId
    query_dht_records env
      { s1 with queries := insertA id authority s1.queries, nextQueryId := id + 1 } rest

/-- Helper loop of `query_peer_info`: issue `n` `get-closest-peers` queries
for random peers and insert their fresh ids into `queries_discovery`. -/
def addDiscovery : Nat → EngineState → EngineState
  | 0, s => s
  | n + 1, s =>
    let id := s.nextQueryId
    let qd := if id ∈ s.queries_discovery then s.queries_discovery
              else s.queries_discovery ++ [id]
    addDiscovery n { s with queries_discovery := qd, nextQueryId := id + 1 }

/-- Source `query_peer_info`: top the `get-closest-peers` queries up to
`MAX_DISCOVERY_QUERIES` when below the cap. -/
def query_peer_info (s : EngineState) : EngineState :=
  if s.queries_discovery.length < MAX_DISCOVERY_QUERIES then
    addDiscovery (MAX_DISCOVERY_QUERIES - s.queries_discovery.length) s
  else s

/-- Source `resubmit_remaining_dht_queries`: clear `queries`, shuffle the
remaining authorities, submit the first `MAX_QUERIES` of them, and when fewer
than `MAX_QUERIES` remained also call `query_peer_info`. -/
def resubmit_remaining_dht_queries (env : Env) (s : EngineState) : EngineState :=
  let s0 := { s with queries := [] }
  let remaining := env.shuffle s0.remaining_authorities
  let remaining_len := remaining.length
  let s1 := query_dht_records env s0 (remaining.take MAX_QUERIES)
  if remaining_len < MAX_QUERIES then query_peer_info s1 else s1

/-- The `while` loop of `advance_dht_queries`: while fewer than `MAX_QUERIES`
queries are in flight, submit the next authority and advance `query_index`;
once the authority list is exhausted, resubmit the remaining authorities if
no query is in flight.  The loop terminates because each iteration advances
`query_index` towards the end of the (unchanged) authority list; the fuel
argument only bounds that measure (callers pass more fuel than the measure,
so the fuel-exhausted branch is never taken and the function computes
exactly the source loop). -/
def advanceLoop (env : Env) : Nat → EngineState → EngineState
  | 0, s => s
  | fuel + 1, s =>
    if s.queries.length < MAX_QUERIES then
      match s.authorities[s.query_index]? with
      | some next =>
        advanceLoop env fuel
          { query_dht_records env s [next] with query_index := s.query_index + 1 }
      | none =>
        if s.queries.isEmpty then resubmit_remaining_dht_queries env s else s
    else s

/-- Source `advance_dht_queries`: run the submission loop (with enough fuel
for its measure), then always call `query_peer_info`. -/
def advance_dht_queries (env : Env) (s : EngineState) : EngineState :=
  query_peer_info (advanceLoop env (s.authorities.length - s.query_index + 1) s)

/-- Update of `authority_to_details` on a decoded record (source
`entry(authority).and_modify(extend).or_insert(collect)`). -/
def updAuthorityDetails (m : List (Pub × List Multiaddr)) (authority : Pub)
    (addresses : List Multiaddr) : List (Pub × List Multiaddr) :=
  match lookupA m authority with
  | some entry => insertA authority (setExtend entry addresses) m
  | none => insertA authority (setExtend [] addresses) m

/-- Update of `peer_details` on a decoded record (source
`entry(peer_id).and_modify(extend addresses).or_insert(PeerDetails)`). -/
def updPeerDetails (m : List (Nat × PeerDetails)) (peer_id : Nat)
    (authority : Pub) (addresses : List Multiaddr) : List (Nat × PeerDetails) :=
  match lookupA m peer_id with
  | some entry =>
    insertA peer_id { entry with addresses := setExtend entry.addresses addresses } m
  | none =>
    insertA peer_id { authority_id := authority, addresses := setExtend [] addresses } m

/-- Swarm events dispatched by `handle_swarm`.  `getRecordFound` is a
`GetRecord` progress carrying `Ok(FoundRecord)`; `getRecordNoRecord` is a
`GetRecord` progress with any other result (`Err` or
`FinishedWithNoAdditionalRecord`); `getClosestPeers` is a `GetClosestPeers`
progress; `identified` is the identify event; `other` covers every other
swarm event. -/
inductive SwarmEv where
  | getRecordFound (id : Nat) (key : Nat) (value : List Nat)
  | getRecordNoRecord (id : Nat)
  | getClosestPeers (id : Nat)
  | identified (peer_id : Nat) (info : Info)
  | other

/-- Source `handle_swarm`: dispatch on the swarm event.  On a `GetRecord`
progress the query id is removed first; then a found record is looked up in
`records_keys` (ignored when absent), decoded (a failure only counts a DHT
error), merged into the detail maps, the authority removed from
`remaining_authorities`, and `advance_dht_queries` called.  A
`GetClosestPeers` progress removes the discovery query and calls
`query_peer_info`.  An identify event overwrites `peer_info`. -/
def handle_swarm (env : Env) (s : EngineState) (ev : SwarmEv) : EngineState :=
  match ev with
  | SwarmEv.getRecordFound id key value =>
    let s1 := { s with queries := eraseA id s.queries }
    match lookupA s1.records_keys key with
    | none => s1
    | some authority =>
      match decode_dht_record env.crypto value authority with
      | Except.error _ => { s1 with dht_errors := s1.dht_errors + 1 }
      | Except.ok (peer_id, addresses) =>
        let s2 := { s1 with
          authority_to_details :=
            updAuthorityDetails s1.authority_to_details authority addresses }
        let s3 := { s2 with
          peer_details := updPeerDetails s2.peer_details peer_id authority addresses }
        let s4 := { s3 with
          remaining_authorities := s3.remaining_authorities.erase authority }
        advance_dht_queries env s4
  | SwarmEv.getRecordNoRecord id =>
    { s with queries := eraseA id s.queries }
  | SwarmEv.getClosestPeers id =>
    query_peer_info { s with queries_discovery := s.queries_discovery.erase id }
  | SwarmEv.identified peer_id info =>
    { s with peer_info := insertA peer_id info s.peer_info }
  | SwarmEv.other => s

/-- One iteration of the select loop in `discover`: either a swarm event is
handled or the resubmit timer ticks (the exit tick leaves the state
unchanged and returns). -/
inductive EngineStep (env : Env) : EngineState → EngineState → Prop
  | swarm (s : EngineState) (ev : SwarmEv) : EngineStep env s (handle_swarm env s ev)
  | resubmitTick (s : EngineState) :
      EngineStep env s (resubmit_remaining_dht_queries env s)

/-- Engine states at quiescent points: right after `new`, after the initial
`advance_dht_queries` at the top of `discover`, and after each completed
iteration of the select loop. -/
inductive Reachable (env : Env) : EngineState → Prop
  | fresh (authorities : List Pub) : Reachable env (EngineState.new authorities)
  | started (authorities : List Pub) :
      Reachable env (advance_dht_queries env (EngineState.new authorities))
  | step {s t : EngineState} : Reachable env s → EngineStep env s t → Reachable env t

/-! ## SS58 codec -/

/-- ASCII bytes of the checksum prefix literal `b"SS58PRE"`. -/
def SS58PRE : List Nat := [83, 83, 53, 56, 80, 82, 69]

/-- Source `ss58hash`: Blake2b-512 of `"SS58PRE"` followed by the data
(`blake2b512` abstracts the Blake2b512 library digest). -/
def ss58hash (blake2b512 : List Nat → List Nat) (data : List Nat) : List Nat :=
  blake2b512 (SS58PRE ++ data)

/-- Source `to_ss58`: mask the version to 14 bits, build the one- or two-byte
prefix, append the key, append the first two checksum bytes, Base58-encode
(`bs58encode` abstracts the bs58 library).  All byte-level casts in the
source stay below 256, so plain `Nat` bitwise arithmetic is exact. -/
def to_ss58 (blake2b512 : List Nat → List Nat) (bs58encode : List Nat → String)
    (key : Pub) (version : Nat) : String :=
  let ident : Nat := version &&& 0x3FFF
  let v : List Nat :=
    if ident ≤ 63 then [ident]
    else [((ident &&& 0xFC) >>> 2) ||| 0x40,
          (ident >>> 8) ||| ((ident &&& 0x3) <<< 6)]
  let v1 := v ++ key
  let r := ss58hash blake2b512 v1
  bs58encode (v1 ++ r.take 2)

/-- The SS58 prefix exactly as §4.4 of the specification words it: `ident`
from the masked version; a single byte `ident` when `ident ≤ 63`; otherwise
the two bytes `((ident AND 0xFC) >> 2) OR 0x40` and
`(ident >> 8) OR ((ident AND 0x3) << 6)`. -/
def ss58PrefixSpec (version : Nat) : List Nat :=
  let ident : Nat := version &&& 0x3FFF
  if ident ≤ 63 then [ident]
  else [((ident &&& 0xFC) >>> 2) ||| 0x40,
        (ident >>> 8) ||| ((ident &&& 0x3) <<< 6)]

/-! ## Report rendering -/

/-- Value placed into a `{:?}` slot of a report line: either a string
(`info.agent_version`) or a set of multiaddresses (`details`). -/
inductive SlotVal where
  | str (s : String)
  | addrSet (addrs : List Multiaddr)
deriving DecidableEq, Repr

/-- One line of the per-authority report of `discover_authorities`.
`reached` and `cannotBeReached` carry the values that the source `println!`
places into the format slots in the order the source passes them:
`reached ss peer addressesSlot versionSlot` renders
`authority=ss peer_id=peer addresses=addressesSlot version=versionSlot`.
`panicNoPeerId` marks the `.expect("All must have valid peerIDs")` panic. -/
inductive ReportLine where
  | noDhtResponse (authority : String)
  | noAddresses (authority : String)
  | reached (authority : String) (peer_id : Nat)
      (addressesSlot : SlotVal) (versionSlot : SlotVal)
  | cannotBeReached (authority : String) (peer_id : Nat) (addressesSlot : SlotVal)
  | panicNoPeerId (authority : String)
deriving DecidableEq, Repr

/-- True exactly on the `No addresses found in DHT record` line. -/
def ReportLine.isNoAddresses : ReportLine → Bool
  | ReportLine.noAddresses _ => true
  | _ => false

/-- True exactly on the `.expect("All must have valid peerIDs")` panic. -/
def ReportLine.isPanicNoPeerId : ReportLine → Bool
  | ReportLine.panicNoPeerId _ => true
  | _ => false

/-- The report loop body of `discover_authorities` for one authority: look
up its details (`No dht response` when absent), pick the first address of
the set (`No addresses found in DHT record` when empty; the set's iteration
order is the insertion order of the list), take its peer id
(`.expect` panics when the address has no terminal `P2p` segment), and
render the reached / not-reached line with the slot values in the order the
source passes them to `println!`: for the reached line the source passes
`info.agent_version` into the `addresses={:?}` slot and `details` into the
`version={:?}` slot. -/
def report_authority (blake2b512 : List Nat → List Nat)
    (bs58encode : List Nat → String) (version : Nat) (s : EngineState)
    (authority : Pub) : ReportLine :=
  let ss := to_ss58 blake2b512 bs58encode authority version
  match lookupA s.authority_to_details authority with
  | none => ReportLine.noDhtResponse ss
  | some details =>
    match details.head? with
    | none => ReportLine.noAddresses ss
    | some addr =>
      match get_peer_id addr with
      | none => ReportLine.panicNoPeerId ss
      | some peer_id =>
        match lookupA s.peer_info peer_id with
        | some info =>
          ReportLine.reached ss peer_id (SlotVal.str info.agent_version)
            (SlotVal.addrSet details)
        | none =>
          ReportLine.cannotBeReached ss peer_id (SlotVal.addrSet details)

/-! ## Notifications connection handler -/

/-- Source `State` of one notification protocol.  Substreams are abstracted
to their presence: `hasInbound` models `inbound_substream.is_some()` and
`hasOutbound` models `outbound_substream.is_some()`; `inbound` is the
direction flag of `Opening`. -/
inductive PState where
  | Closed (pending_opening : Bool)
  | OpenDesiredByRemote (pending_opening : Bool)
  | Opening (hasInbound : Bool) (inbound : Bool)
  | Open (hasInbound : Bool) (hasOutbound : Bool)
deriving DecidableEq, Repr

/-- True exactly on the `Closed` state. -/
def PState.isClosed : PState → Bool
  | PState.Closed _ => true
  | _ => false

/-- Source `NotificationsHandlerFromBehavior`. -/
inductive FromBehavior where
  | open (index : Nat)
  | close (index : Nat)
deriving DecidableEq, Repr

/-- Source `NotificationsHandlerToBehavior` (payloads irrelevant to the
claims — handshake bytes, endpoints, senders — are dropped). -/
inductive ToBehavior where
  | handshakeCompleted (index : Nat) (is_inbound : Bool)
  | handshakeError (index : Nat)
  | openDesiredByRemote (index : Nat)
  | closeDesired (index : Nat)
  | close (index : Nat)
  | notification (index : Nat)
deriving DecidableEq, Repr

/-- Source `ConnectionHandlerEvent` as pushed onto `pending_events`: either a
`NotifyBehaviour` event or an `OutboundSubstreamRequest` for a protocol. -/
inductive HandlerEv where
  | notify (ev : ToBehavior)
  | outboundRequest (index : Nat)
deriving DecidableEq, Repr

/-- Source `NotificationsHandler`: the per-protocol states and the pending
event queue (`push_back` appends at the end). -/
structure Handler where
  protocols : List PState
  pending_events : List HandlerEv
deriving DecidableEq, Repr

/-- Source `KeepAlive` (only `Yes` and `No` are ever produced). -/
inductive KeepAliveR where
  | yes
  | no
deriving DecidableEq, Repr

/-- Source `connection_keep_alive`: `Yes` when any protocol is not
`Closed`, otherwise `No`. -/
def connection_keep_alive (h : Handler) : KeepAliveR :=
  if h.protocols.any (fun p => ! p.isClosed) then KeepAliveR.yes
  else KeepAliveR.no

/-- Source `on_behaviour_event`: an `Open{index}` request transitions
`Closed`/`OpenDesiredByRemote` into `Opening`, requesting an outbound
substream unless `pending_opening` is set; a `Close{index}` transitions the
protocol to `Closed` (from `Opening`: `pending_opening = true` plus a
`HandshakeError`; from `OpenDesiredByRemote`: `pending_opening` preserved)
and always emits `Close{index}`.  Out-of-range indices panic in the source;
here they read a default so that the theorems can guard on the index. -/
def on_behaviour_event (h : Handler) (message : FromBehavior) : Handler :=
  match message with
  | FromBehavior.open index =>
    match h.protocols.getD index (PState.Closed false) with
    | PState.Closed pending_opening =>
      let requests := if ¬ pending_opening then [HandlerEv.outboundRequest index] else []
      { protocols := h.protocols.set index (PState.Opening false false)
        pending_events := h.pending_events ++ requests }
    | PState.OpenDesiredByRemote pending_opening =>
      let requests := if ¬ pending_opening then [HandlerEv.outboundRequest index] else []
      { protocols := h.protocols.set index (PState.Opening true true)
        pending_events := h.pending_events ++ requests }
    | PState.Opening _ _ => h
    | PState.Open _ _ => h
  | FromBehavior.close index =>
    let result :=
      match h.protocols.getD index (PState.Closed false) with
      | PState.Closed pending_opening => (PState.Closed pending_opening, [])
      | PState.OpenDesiredByRemote pending_opening => (PState.Closed pending_opening, [])
      | PState.Opening _ _ =>
        (PState.Closed true, [HandlerEv.notify (ToBehavior.handshakeError index)])
      | PState.Open _ _ => (PState.Closed false, [])
    { protocols := h.protocols.set index result.1
      pending_events :=
        h.pending_events ++ result.2 ++ [HandlerEv.notify (ToBehavior.close index)] }


/-! ## Concrete instantiations used by witnesses and counterexamples -/

/-- The length and non-emptiness invariant at quiescent points: at most
`MAX_QUERIES` record queries in flight, at most `MAX_DISCOVERY_QUERIES`
discovery queries in flight, and every stored address set non-empty. -/
def EngineInv (s : EngineState) : Prop :=
  s.queries.length ≤ MAX_QUERIES ∧
  s.queries_discovery.length ≤ MAX_DISCOVERY_QUERIES ∧
  ∀ p ∈ s.authority_to_details, p.2 ≠ []

/-- A concrete Blake2b-512 stand-in (any function of the right shape). -/
def blakeZ : List Nat → List Nat := fun _ => List.replicate 64 0

/-- A concrete Base58 stand-in (any function of the right shape). -/
def b58Z : List Nat → String := fun _ => "b58"

/-- An oracle on which every decode and every verification fails. -/
def cryptoReject : CryptoOracle :=
  { decodeSigned := fun _ => none
    decodeAuthorityRecord := fun _ => none
    parseMultiaddr := fun _ => none
    sr25519Verify := fun _ _ _ => false
    decodePublicKey := fun _ => none
    toPeerId := fun _ => 0
    pkVerify := fun _ _ _ => false }

/-- Environment with the rejecting oracle; the authority hash reads the
first byte, the shuffle is the identity. -/
def envReject : Env :=
  { crypto := cryptoReject, hashAuth := fun p => p.headD 0, shuffle := id }

/-- Nine one-byte authority ids (more than `MAX_QUERIES`). -/
def auths9 : List Pub := [[0], [1], [2], [3], [4], [5], [6], [7], [8]]

/-- The engine right after `new` plus the initial `advance_dht_queries` on
the nine authorities: eight queries in flight, `query_index = 8`. -/
def sC2 : EngineState := advance_dht_queries envReject (EngineState.new auths9)

/-- A well-formed decoded payload with a 64-byte authority signature. -/
def payloadOk : SignedAuthorityRecord :=
  { record := [0]
    auth_signature := List.replicate 64 0
    peer_signature := some { public_key := [1], signature := [2] } }

/-- An oracle on which everything decodes and verifies; the single decoded
address is `/p2p/7`. -/
def oracleAccept : CryptoOracle :=
  { decodeSigned := fun _ => some payloadOk
    decodeAuthorityRecord := fun _ => some [[0]]
    parseMultiaddr := fun _ => some [MSeg.p2p 7]
    sr25519Verify := fun _ _ _ => true
    decodePublicKey := fun _ => some 1
    toPeerId := fun _ => 7
    pkVerify := fun _ _ _ => true }

/-- Environment with the accepting oracle. -/
def envAccept : Env :=
  { crypto := oracleAccept, hashAuth := fun p => p.headD 0, shuffle := id }

/-- One authority, right after the initial `advance_dht_queries`. -/
def sAccept0 : EngineState := advance_dht_queries envAccept (EngineState.new [[0]])

/-- After a found record for the single authority has been decoded. -/
def sAccept1 : EngineState :=
  handle_swarm envAccept sAccept0 (SwarmEv.getRecordFound 0 0 [9])

/-- After the identify event for the record's peer has arrived. -/
def sAccept2 : EngineState :=
  handle_swarm envAccept sAccept1 (SwarmEv.identified 7 { agent_version := "node/1.0" })

/-- A payload whose `auth_signature` protobuf bytes field has 65 bytes: a
valid 64-byte signature with one trailing byte. -/
def payloadC4 : SignedAuthorityRecord :=
  { record := [0]
    auth_signature := List.replicate 65 0
    peer_signature := some { public_key := [1], signature := [2] } }

/-- The accepting oracle delivering the 65-byte-signature payload. -/
def oracleC4 : CryptoOracle :=
  { oracleAccept with decodeSigned := fun _ => some payloadC4 }

/-- A payload whose `auth_signature` bytes field has only 3 bytes. -/
def payloadShortSig : SignedAuthorityRecord :=
  { record := [0]
    auth_signature := [1, 2, 3]
    peer_signature := some { public_key := [1], signature := [2] } }

/-- The accepting oracle delivering the 3-byte-signature payload. -/
def oracleShortSig : CryptoOracle :=
  { oracleAccept with decodeSigned := fun _ => some payloadShortSig }

/-- An oracle whose record decodes to two addresses: one without any
terminal `P2p` segment and one ending in `/p2p/7`; `decode_dht_record`
accepts this pair. -/
def oracleMixed : CryptoOracle :=
  { decodeSigned := fun _ => some payloadOk
    decodeAuthorityRecord := fun _ => some [[0], [1]]
    parseMultiaddr := fun raw =>
      if raw = [0] then some [MSeg.seg 0] else some [MSeg.seg 0, MSeg.p2p 7]
    sr25519Verify := fun _ _ _ => true
    decodePublicKey := fun _ => some 1
    toPeerId := fun _ => 7
    pkVerify := fun _ _ _ => true }

/-- Environment with the mixed-addresses oracle. -/
def envMixed : Env :=
  { crypto := oracleMixed, hashAuth := fun p => p.headD 0, shuffle := id }

/-- One authority whose decoded record stores an address set whose first
element has no terminal `P2p` segment. -/
def sMixed : EngineState :=
  handle_swarm envMixed (advance_dht_queries envMixed (EngineState.new [[0]]))
    (SwarmEv.getRecordFound 0 0 [9])

/-- A handler whose single protocol is in the `Opening` state. -/
def hOpening : Handler :=
  { protocols := [PState.Opening false false], pending_events := [] }

/-! ## Helper lemmas on the map and set operations -/

theorem insertA_length_le {α β : Type} [DecidableEq α] (k : α) (v : β)
    (m : List (α × β)) : (insertA k v m).length ≤ m.length + 1 := by
  induction m with
  | nil => simp [insertA]
  | cons p rest ih =>
    unfold insertA
    split
    · simp
    · simpa using Nat.succ_le_succ ih

theorem eraseA_length_le {α β : Type} [DecidableEq α] (k : α)
    (m : List (α × β)) : (eraseA k m).length ≤ m.length := by
  induction m with
  | nil => simp [eraseA]
  | cons p rest ih =>
    unfold eraseA
    split
    · simp
    · simpa using Nat.succ_le_succ ih

theorem lookupA_mem {α β : Type} [DecidableEq α] {m : List (α × β)} {k : α}
    {v : β} (h : lookupA m k = some v) : (k, v) ∈ m := by
  induction m with
  | nil => simp [lookupA] at h
  | cons hd rest ih =>
    obtain ⟨k0, v0⟩ := hd
    simp only [lookupA] at h
    by_cases hk : k0 = k
    · rw [if_pos hk] at h
      injection h with hv
      subst hk hv
      exact List.mem_cons_self _ _
    · rw [if_neg hk] at h
      exact List.mem_cons_of_mem _ (ih h)

theorem insertA_values {α β : Type} [DecidableEq α] (P : β → Prop) {k : α}
    {v : β} {m : List (α × β)} (hm : ∀ p ∈ m, P p.2) (hv : P v) :
    ∀ p ∈ insertA k v m, P p.2 := by
  induction m with
  | nil =>
    intro p hp
    simp [insertA] at hp
    subst hp
    exact hv
  | cons q rest ih =>
    intro p hp
    unfold insertA at hp
    split at hp
    · rcases List.mem_cons.mp hp with h | h
      · subst h; exact hv
      · exact hm p (List.mem_cons_of_mem _ h)
    · rcases List.mem_cons.mp hp with h | h
      · subst h; exact hm q (List.mem_cons_self _ _)
      · exact ih (fun r hr => hm r (List.mem_cons_of_mem _ hr)) p h

theorem setExtend_length_ge {α : Type} [DecidableEq α] (xs s : List α) :
    s.length ≤ (setExtend s xs).length := by
  induction xs generalizing s with
  | nil => simp [setExtend]
  | cons x rest ih =>
    unfold setExtend
    simp only [List.foldl]
    split
    · exact ih s
    · calc s.length ≤ (s ++ [x]).length := by simp
        _ ≤ _ := ih (s ++ [x])

theorem setExtend_ne_nil_left {α : Type} [DecidableEq α] {s : List α}
    (xs : List α) (hs : s ≠ []) : setExtend s xs ≠ [] := by
  intro h
  have h1 := setExtend_length_ge xs s
  rw [h] at h1
  simp at h1
  exact hs h1

theorem setExtend_nil_ne_nil {α : Type} [DecidableEq α] {xs : List α}
    (hxs : xs ≠ []) : setExtend ([] : List α) xs ≠ [] := by
  cases xs with
  | nil => exact absurd rfl hxs
  | cons x rest =>
    unfold setExtend
    simp only [List.foldl, List.not_mem_nil, if_neg, List.nil_append]
    have : ([x] : List α) ≠ [] := by simp
    exact setExtend_ne_nil_left rest this

/-! ## Preservation lemmas for the engine scheduler -/

theorem qdr_const (env : Env) (s : EngineState) (auths : List Pub) :
    (query_dht_records env s auths).queries_discovery = s.queries_discovery ∧
    (query_dht_records env s auths).authority_to_details = s.authority_to_details ∧
    (query_dht_records env s auths).authorities = s.authorities ∧
    (query_dht_records env s auths).query_index = s.query_index := by
  induction auths generalizing s with
  | nil => simp [query_dht_records]
  | cons a rest ih => simpa [query_dht_records] using ih _

theorem qdr_queries_le (env : Env) (s : EngineState) (auths : List Pub) :
    (query_dht_records env s auths).queries.length ≤
      s.queries.length + auths.length := by
  induction auths generalizing s with
  | nil => simp [query_dht_records]
  | cons a rest ih =>
    simp only [query_dht_records]
    calc (query_dht_records env _ rest).queries.length
        ≤ (insertA s.nextQueryId a s.queries).length + rest.length := ih _
      _ ≤ s.queries.length + 1 + rest.length :=
          Nat.add_le_add_right (insertA_length_le _ _ _) _
      _ = s.queries.length + (a :: rest).length := by simp; omega

theorem addDiscovery_const (n : Nat) (s : EngineState) :
    (addDiscovery n s).queries = s.queries ∧
    (addDiscovery n s).authority_to_details = s.authority_to_details ∧
    (addDiscovery n s).authorities = s.authorities ∧
    (addDiscovery n s).query_index = s.query_index := by
  induction n generalizing s with
  | zero => simp [addDiscovery]
  | succ n ih => simpa [addDiscovery] using ih _

theorem addDiscovery_le (n : Nat) (s : EngineState) :
    (addDiscovery n s).queries_discovery.length ≤
      s.queries_discovery.length + n := by
  induction n generalizing s with
  | zero => simp [addDiscovery]
  | succ n ih =>
    simp only [addDiscovery]
    split
    · refine le_trans (ih _) ?_
      simp
    · refine le_trans (ih _) ?_
      simp
      omega

theorem query_peer_info_const (s : EngineState) :
    (query_peer_info s).queries = s.queries ∧
    (query_peer_info s).authority_to_details = s.authority_to_details ∧
    (query_peer_info s).authorities = s.authorities ∧
    (query_peer_info s).query_index = s.query_index := by
  unfold query_peer_info
  split
  · exact addDiscovery_const _ _
  · exact ⟨rfl, rfl, rfl, rfl⟩

theorem query_peer_info_qd_le (s : EngineState)
    (h : s.queries_discovery.length ≤ MAX_DISCOVERY_QUERIES) :
    (query_peer_info s).queries_discovery.length ≤ MAX_DISCOVERY_QUERIES := by
  unfold query_peer_info
  split
  next hlt =>
    calc (addDiscovery _ s).queries_discovery.length
        ≤ s.queries_discovery.length +
            (MAX_DISCOVERY_QUERIES - s.queries_discovery.length) :=
          addDiscovery_le _ _
      _ ≤ MAX_DISCOVERY_QUERIES := by omega
  · exact h

theorem resubmit_queries_le (env : Env) (s : EngineState) :
    (resubmit_remaining_dht_queries env s).queries.length ≤ MAX_QUERIES := by
  simp only [resubmit_remaining_dht_queries]
  split
  · rw [(query_peer_info_const _).1]
    refine le_trans (qdr_queries_le _ _ _) ?_
    simpa using List.length_take_le _ _
  · refine le_trans (qdr_queries_le _ _ _) ?_
    simpa using List.length_take_le _ _

theorem resubmit_const (env : Env) (s : EngineState) :
    (resubmit_remaining_dht_queries env s).authority_to_details =
      s.authority_to_details ∧
    (resubmit_remaining_dht_queries env s).authorities = s.authorities ∧
    (resubmit_remaining_dht_queries env s).query_index = s.query_index := by
  simp only [resubmit_remaining_dht_queries]
  split
  · refine ⟨?_, ?_, ?_⟩
    · rw [(query_peer_info_const _).2.1, (qdr_const _ _ _).2.1]
    · rw [(query_peer_info_const _).2.2.1, (qdr_const _ _ _).2.2.1]
    · rw [(query_peer_info_const _).2.2.2, (qdr_const _ _ _).2.2.2]
  · exact ⟨(qdr_const _ _ _).2.1, (qdr_const _ _ _).2.2.1, (qdr_const _ _ _).2.2.2⟩

theorem resubmit_qd_le (env : Env) (s : EngineState)
    (h : s.queries_discovery.length ≤ MAX_DISCOVERY_QUERIES) :
    (resubmit_remaining_dht_queries env s).queries_discovery.length ≤
      MAX_DISCOVERY_QUERIES := by
  simp only [resubmit_remaining_dht_queries]
  split
  · apply query_peer_info_qd_le
    rw [(qdr_const _ _ _).1]
    exact h
  · rw [(qdr_const _ _ _).1]
    exact h

theorem advanceLoop_facts (env : Env) (fuel : Nat) : ∀ (s : EngineState),
    s.authorities.length - s.query_index < fuel →
    s.queries.length ≤ MAX_QUERIES →
    (advanceLoop env fuel s).queries.length ≤ MAX_QUERIES ∧
    (advanceLoop env fuel s).authority_to_details = s.authority_to_details ∧
    (advanceLoop env fuel s).authorities = s.authorities ∧
    (s.queries_discovery.length ≤ MAX_DISCOVERY_QUERIES →
      (advanceLoop env fuel s).queries_discovery.length ≤ MAX_DISCOVERY_QUERIES) ∧
    ((advanceLoop env fuel s).queries.length = MAX_QUERIES ∨
      (advanceLoop env fuel s).authorities.length ≤
        (advanceLoop env fuel s).query_index) := by
  induction fuel with
  | zero =>
    intro s hfuel hq
    omega
  | succ fuel ih =>
    intro s hfuel hq
    rw [advanceLoop]
    split
    · rename_i hlt
      split
      · rename_i next hget
        have hqi : s.query_index < s.authorities.length :=
          (List.getElem?_eq_some_iff.mp hget).1
        have hfuel2 : ({ query_dht_records env s [next] with
            query_index := s.query_index + 1 } : EngineState).authorities.length -
            ({ query_dht_records env s [next] with
              query_index := s.query_index + 1 } : EngineState).query_index < fuel := by
          show (query_dht_records env s [next]).authorities.length -
            (s.query_index + 1) < fuel
          rw [(qdr_const env s [next]).2.2.1]
          omega
        have hq2 : ({ query_dht_records env s [next] with
            query_index := s.query_index + 1 } : EngineState).queries.length ≤
            MAX_QUERIES := by
          show (query_dht_records env s [next]).queries.length ≤ MAX_QUERIES
          refine le_trans (qdr_queries_le _ _ _) ?_
          simp only [List.length_singleton]
          omega
        obtain ⟨c1, c2, c3, c4, c5⟩ := ih
          { query_dht_records env s [next] with query_index := s.query_index + 1 }
          hfuel2 hq2
        refine ⟨c1, ?_, ?_, ?_, c5⟩
        · rw [c2]
          exact (qdr_const _ _ _).2.1
        · rw [c3]
          exact (qdr_const _ _ _).2.2.1
        · intro hd
          apply c4
          rw [(qdr_const _ _ _).1]
          exact hd
      · rename_i hget
        split
        · refine ⟨resubmit_queries_le _ _, (resubmit_const _ _).1,
            (resubmit_const _ _).2.1, resubmit_qd_le _ _, Or.inr ?_⟩
          rw [(resubmit_const _ _).2.1, (resubmit_const _ _).2.2]
          exact List.getElem?_eq_none_iff.mp hget
        · exact ⟨hq, rfl, rfl, fun hd => hd,
            Or.inr (List.getElem?_eq_none_iff.mp hget)⟩
    · rename_i hge
      exact ⟨hq, rfl, rfl, fun hd => hd, Or.inl (by omega)⟩

theorem advance_facts (env : Env) (s : EngineState)
    (hq : s.queries.length ≤ MAX_QUERIES) :
    (advance_dht_queries env s).queries.length ≤ MAX_QUERIES ∧
    (advance_dht_queries env s).authority_to_details = s.authority_to_details ∧
    (advance_dht_queries env s).authorities = s.authorities ∧
    (s.queries_discovery.length ≤ MAX_DISCOVERY_QUERIES →
      (advance_dht_queries env s).queries_discovery.length ≤ MAX_DISCOVERY_QUERIES) ∧
    ((advance_dht_queries env s).queries.length = MAX_QUERIES ∨
      (advance_dht_queries env s).authorities.length ≤
        (advance_dht_queries env s).query_index) := by
  obtain ⟨c1, c2, c3, c4, c5⟩ :=
    advanceLoop_facts env (s.authorities.length - s.query_index + 1) s
      (by omega) hq
  unfold advance_dht_queries
  refine ⟨?_, ?_, ?_, ?_, ?_⟩
  · rw [(query_peer_info_const _).1]
    exact c1
  · rw [(query_peer_info_const _).2.1]
    exact c2
  · rw [(query_peer_info_const _).2.2.1]
    exact c3
  · intro hd
    exact query_peer_info_qd_le _ (c4 hd)
  · rw [(query_peer_info_const _).1, (query_peer_info_const _).2.2.1,
      (query_peer_info_const _).2.2.2]
    exact c5

/-! ## Facts about successful record decoding -/

theorem decode_ok_facts {oracle : CryptoOracle} {value : List Nat}
    {authority_id : Pub} {peer_id : Nat} {addresses : List Multiaddr}
    (h : decode_dht_record oracle value authority_id =
      Except.ok (peer_id, addresses)) :
    addresses ≠ [] ∧
    (addresses.filterMap get_peer_id).dedup = [peer_id] ∧
    ∃ payload raws,
      oracle.decodeSigned value = some payload ∧
      oracle.decodeAuthorityRecord payload.record = some raws ∧
      parseAddrs oracle raws = Except.ok addresses := by
  unfold decode_dht_record at h
  split at h
  · cases h
  · rename_i payload hsigned
    split at h
    · cases h
    · rename_i auth_signature hsig
      split at h
      · cases h
      · split at h
        · cases h
        · rename_i raws hinner
          split at h
          · cases h
          · rename_i addrs0 haddrs
            split at h
            · cases h
            · rename_i hne
              split at h
              · rename_i pid0 hdedup
                split at h
                · cases h
                · rename_i peer_signature hps
                  split at h
                  · cases h
                  · rename_i public_key hpk
                    split at h
                    · cases h
                    · split at h
                      · cases h
                      · injection h with hpair
                        injection hpair with h1 h2
                        subst h1
                        subst h2
                        refine ⟨?_, hdedup, payload, raws, hsigned, hinner, haddrs⟩
                        intro hnil
                        subst hnil
                        simp at hne
              · cases h

theorem updAuthorityDetails_values {m : List (Pub × List Multiaddr)}
    {authority : Pub} {addresses : List Multiaddr}
    (hm : ∀ p ∈ m, p.2 ≠ []) (ha : addresses ≠ []) :
    ∀ p ∈ updAuthorityDetails m authority addresses, p.2 ≠ [] := by
  unfold updAuthorityDetails
  split
  · rename_i entry hentry
    have hent : entry ≠ [] := hm _ (lookupA_mem hentry)
    exact insertA_values (fun l => l ≠ []) hm (setExtend_ne_nil_left _ hent)
  · exact insertA_values (fun l => l ≠ []) hm (setExtend_nil_ne_nil ha)

theorem advance_inv (env : Env) (s : EngineState)
    (hq : s.queries.length ≤ MAX_QUERIES)
    (hd : s.queries_discovery.length ≤ MAX_DISCOVERY_QUERIES)
    (ha : ∀ p ∈ s.authority_to_details, p.2 ≠ []) :
    EngineInv (advance_dht_queries env s) := by
  obtain ⟨c1, c2, c3, c4, c5⟩ := advance_facts env s hq
  refine ⟨c1, c4 hd, ?_⟩
  rw [c2]
  exact ha

theorem handle_swarm_inv (env : Env) (s : EngineState) (ev : SwarmEv)
    (hs : EngineInv s) : EngineInv (handle_swarm env s ev) := by
  obtain ⟨h1, h2, h3⟩ := hs
  cases ev with
  | getRecordFound id key value =>
    simp only [handle_swarm]
    split
    · exact ⟨le_trans (eraseA_length_le _ _) h1, h2, h3⟩
    · rename_i authority hkey
      split
      · exact ⟨le_trans (eraseA_length_le _ _) h1, h2, h3⟩
      · rename_i peer_id addresses hdec
        have hne := (decode_ok_facts hdec).1
        apply advance_inv
        · exact le_trans (eraseA_length_le _ _) h1
        · exact h2
        · exact updAuthorityDetails_values h3 hne
  | getRecordNoRecord id =>
    exact ⟨le_trans (eraseA_length_le _ _) h1, h2, h3⟩
  | getClosestPeers id =>
    simp only [handle_swarm]
    refine ⟨?_, ?_, ?_⟩
    · rw [(query_peer_info_const _).1]
      exact h1
    · exact query_peer_info_qd_le _ (le_trans (List.length_erase_le _ _) h2)
    · rw [(query_peer_info_const _).2.1]
      exact h3
  | identified peer_id info => exact ⟨h1, h2, h3⟩
  | other => exact ⟨h1, h2, h3⟩

theorem reachable_inv {env : Env} {s : EngineState} (h : Reachable env s) :
    EngineInv s := by
  induction h with
  | fresh authorities => exact ⟨by simp [EngineState.new], by simp [EngineState.new],
      by simp [EngineState.new]⟩
  | started authorities =>
    have hnew : EngineInv (EngineState.new authorities) := ⟨by simp [EngineState.new],
      by simp [EngineState.new], by simp [EngineState.new]⟩
    obtain ⟨h1, h2, h3⟩ := hnew
    obtain ⟨c1, c2, c3, c4, c5⟩ := advance_facts env _ h1
    refine ⟨c1, c4 h2, ?_⟩
    rw [c2]
    exact h3
  | step hr hstep ih =>
    obtain ⟨h1, h2, h3⟩ := ih
    cases hstep with
    | swarm ev => exact handle_swarm_inv env _ ev ⟨h1, h2, h3⟩
    | resubmitTick =>
      refine ⟨resubmit_queries_le _ _, resubmit_qd_le _ _ h2, ?_⟩
      rw [(resubmit_const _ _).1]
      exact h3

theorem report_not_noAddresses {s : EngineState}
    (h3 : ∀ p ∈ s.authority_to_details, p.2 ≠ [])
    (blake : List Nat → List Nat) (b58 : List Nat → String) (version : Nat)
    (a : Pub) :
    (report_authority blake b58 version s a).isNoAddresses = false := by
  simp only [report_authority]
  split
  · rfl
  · rename_i details hdetails
    split
    · rename_i hhead
      rw [List.head?_eq_none_iff] at hhead
      exact absurd hhead (h3 _ (lookupA_mem hdetails))
    · rename_i addr hhead
      split
      · rfl
      · rename_i pid hpid
        split
        · rfl
        · rfl

/-! ## Claims -/

/-- C1.  The reached report line has the form
`authority={SS58} peer_id={PeerId} addresses={Multiaddrs} version={agent_version}`
with the discovered multiaddresses in the addresses field and the identify
agent version in the version field.  The code violates this: the source
`println!` passes `info.agent_version` into the `addresses={:?}` slot and
`details` into the `version={:?}` slot, so in the reachable state `sAccept2`
the slots come out swapped. -/
theorem c1_reached_line_slots_swapped :
    Reachable envAccept sAccept2 ∧
    report_authority blakeZ b58Z 0 sAccept2 [0] =
      ReportLine.reached (to_ss58 blakeZ b58Z [0] 0) 7
        (SlotVal.str "node/1.0") (SlotVal.addrSet [[MSeg.p2p 7]]) ∧
    SlotVal.str "node/1.0" ≠ SlotVal.addrSet [[MSeg.p2p 7]] :=
  ⟨Reachable.step
      (Reachable.step (Reachable.started [[0]])
        (EngineStep.swarm sAccept0 (SwarmEv.getRecordFound 0 0 [9])))
      (EngineStep.swarm sAccept1 (SwarmEv.identified 7 { agent_version := "node/1.0" })),
    by decide, by decide⟩

/-- C2 (counterexample).  In the reachable state `sC2` (nine authorities,
eight queries in flight, `query_index = 8`), the `GetRecord` event for query
id 0 whose record fails to decode removes the query id from `queries` but
does not refill the freed slot: afterwards fewer than `MAX_QUERIES` queries
are in flight while a further candidate authority exists. -/
theorem c2_counterexample :
    Reachable envReject sC2 ∧
    lookupA sC2.queries 0 = some [0] ∧
    lookupA (handle_swarm envReject sC2 (SwarmEv.getRecordFound 0 0 [])).queries 0 =
      none ∧
    (handle_swarm envReject sC2 (SwarmEv.getRecordFound 0 0 [])).queries.length <
      MAX_QUERIES ∧
    (handle_swarm envReject sC2 (SwarmEv.getRecordFound 0 0 [])).query_index <
      (handle_swarm envReject sC2 (SwarmEv.getRecordFound 0 0 [])).authorities.length :=
  ⟨Reachable.started auths9, by decide, by decide, by decide, by decide⟩

/-- C2 (amended).  `handle_swarm` refills the record-query slots only on a
`GetRecord` progress event whose record is found, whose key is known and
whose payload decodes and verifies: after such an event either
`MAX_QUERIES` queries are again in flight or every authority has already
been submitted (`query_index` past the end of the authority list).  Events
whose record fails to decode, whose key is unknown, or whose result carries
no record only remove the query. -/
theorem c2_amended_refill_on_successful_decode (env : Env) (s : EngineState)
    (id key : Nat) (value : List Nat) (authority : Pub) (peer_id : Nat)
    (addresses : List Multiaddr) (hr : Reachable env s)
    (hkey : lookupA s.records_keys key = some authority)
    (hdec : decode_dht_record env.crypto value authority =
      Except.ok (peer_id, addresses)) :
    (handle_swarm env s (SwarmEv.getRecordFound id key value)).queries.length =
      MAX_QUERIES ∨
    (handle_swarm env s (SwarmEv.getRecordFound id key value)).authorities.length ≤
      (handle_swarm env s (SwarmEv.getRecordFound id key value)).query_index := by
  simp only [handle_swarm, hkey, hdec]
  exact (advance_facts env _
    (le_trans (eraseA_length_le _ _) (reachable_inv hr).1)).2.2.2.2

/-- C2 (amended) at a concrete input: one authority, its record decodes,
and after the event the single authority has been submitted. -/
theorem c2_amended_witness :
    Reachable envAccept sAccept0 ∧
    lookupA sAccept0.records_keys 0 = some [0] ∧
    decode_dht_record envAccept.crypto [9] [0] =
      Except.ok (7, [[MSeg.p2p 7]]) ∧
    ((handle_swarm envAccept sAccept0 (SwarmEv.getRecordFound 0 0 [9])).queries.length =
        MAX_QUERIES ∨
      (handle_swarm envAccept sAccept0
            (SwarmEv.getRecordFound 0 0 [9])).authorities.length ≤
        (handle_swarm envAccept sAccept0
            (SwarmEv.getRecordFound 0 0 [9])).query_index) :=
  ⟨Reachable.started [[0]], by decide, rfl,
    c2_amended_refill_on_successful_decode envAccept sAccept0 0 0 [9] [0] 7
      [[MSeg.p2p 7]] (Reachable.started [[0]]) (by decide) rfl⟩

/-- C3.  Whenever `decode_dht_record` succeeds, it returns the decoded
address list unchanged and in order, that list is non-empty, the distinct
terminal `P2p` peer ids among the addresses form exactly one value, and the
returned peer id is that value. -/
theorem c3_decode_success_shape (oracle : CryptoOracle) (value : List Nat)
    (authority_id : Pub) (peer_id : Nat) (addresses : List Multiaddr)
    (h : decode_dht_record oracle value authority_id =
      Except.ok (peer_id, addresses)) :
    addresses ≠ [] ∧
    (addresses.filterMap get_peer_id).dedup = [peer_id] ∧
    ∃ payload raws,
      oracle.decodeSigned value = some payload ∧
      oracle.decodeAuthorityRecord payload.record = some raws ∧
      parseAddrs oracle raws = Except.ok addresses :=
  decode_ok_facts h

/-- C3 at a concrete successful decode. -/
theorem c3_witness :
    ([[MSeg.p2p 7]] : List Multiaddr) ≠ [] ∧
    (([[MSeg.p2p 7]] : List Multiaddr).filterMap get_peer_id).dedup = [7] ∧
    ∃ payload raws,
      oracleAccept.decodeSigned [9] = some payload ∧
      oracleAccept.decodeAuthorityRecord payload.record = some raws ∧
      parseAddrs oracleAccept raws = Except.ok [[MSeg.p2p 7]] :=
  c3_decode_success_shape oracleAccept [9] [0] 7 [[MSeg.p2p 7]] rfl

/-- C4 (counterexample).  A payload whose outer record decodes with a
65-byte `auth_signature` is not rejected: the SCALE decode of `[u8; 64]`
reads the first 64 bytes and ignores the 65th, so with a signature whose
64-byte prefix verifies, `decode_dht_record` succeeds. -/
theorem c4_counterexample :
    oracleC4.decodeSigned [0] = some payloadC4 ∧
    payloadC4.auth_signature.length ≠ 64 ∧
    decode_dht_record oracleC4 [0] [3] = Except.ok (7, [[MSeg.p2p 7]]) :=
  ⟨rfl, by decide, rfl⟩

/-- C4 (amended).  For every payload whose outer `SignedAuthorityRecord`
decodes and whose `auth_signature` field is shorter than 64 bytes,
`decode_dht_record` returns an error; fields of 64 bytes or more are
truncated to their first 64 bytes instead of being rejected. -/
theorem c4_amended_short_signature_fails (oracle : CryptoOracle)
    (value : List Nat) (authority_id : Pub) (payload : SignedAuthorityRecord)
    (hdec : oracle.decodeSigned value = some payload)
    (hlen : payload.auth_signature.length < 64) :
    ∃ e, decode_dht_record oracle value authority_id = Except.error e := by
  simp only [decode_dht_record, hdec, scaleDecodeSig64]
  rw [if_neg (by omega)]
  exact ⟨_, rfl⟩

/-- C4 (amended) at a concrete input: a 3-byte signature field fails. -/
theorem c4_amended_witness :
    oracleShortSig.decodeSigned [0] = some payloadShortSig ∧
    payloadShortSig.auth_signature.length < 64 ∧
    ∃ e, decode_dht_record oracleShortSig [0] [3] = Except.error e :=
  ⟨rfl, by decide,
    c4_amended_short_signature_fails oracleShortSig [0] [3] payloadShortSig rfl
      (by decide)⟩

/-- C5.  At every quiescent point of the engine, at most
`MAX_QUERIES = 8` record queries and at most `MAX_DISCOVERY_QUERIES = 32`
discovery queries are in flight. -/
theorem c5_inflight_caps (env : Env) (s : EngineState) (hr : Reachable env s) :
    s.queries.length ≤ MAX_QUERIES ∧
    s.queries_discovery.length ≤ MAX_DISCOVERY_QUERIES :=
  ⟨(reachable_inv hr).1, (reachable_inv hr).2.1⟩

/-- C5 at the concrete reachable state `sC2`. -/
theorem c5_witness :
    sC2.queries.length ≤ MAX_QUERIES ∧
    sC2.queries_discovery.length ≤ MAX_DISCOVERY_QUERIES :=
  c5_inflight_caps envReject sC2 (Reachable.started auths9)

/-- C6.  On a behavior `Close{index}` received while the protocol is
`Opening`, the state becomes `Closed{pending_opening = true}` and a
`HandshakeError{index}` is emitted; and on a `Close{index}` received in any
state, `Close{index}` is emitted. -/
theorem c6_close_event (h : Handler) (index : Nat)
    (hidx : index < h.protocols.length) :
    (∀ hi ib, h.protocols[index]? = some (PState.Opening hi ib) →
      (on_behaviour_event h (FromBehavior.close index)).protocols[index]? =
        some (PState.Closed true) ∧
      HandlerEv.notify (ToBehavior.handshakeError index) ∈
        (on_behaviour_event h (FromBehavior.close index)).pending_events) ∧
    HandlerEv.notify (ToBehavior.close index) ∈
      (on_behaviour_event h (FromBehavior.close index)).pending_events := by
  constructor
  · intro hi ib hst
    simp only [on_behaviour_event, List.getD_eq_getElem?_getD, hst, Option.getD_some]
    exact ⟨List.getElem?_set_self hidx, by simp⟩
  · simp only [on_behaviour_event, List.getD_eq_getElem?_getD]
    split <;> simp

/-- C6 at a concrete handler whose protocol 0 is `Opening`. -/
theorem c6_witness :
    (on_behaviour_event hOpening (FromBehavior.close 0)).protocols[0]? =
      some (PState.Closed true) ∧
    HandlerEv.notify (ToBehavior.handshakeError 0) ∈
      (on_behaviour_event hOpening (FromBehavior.close 0)).pending_events ∧
    HandlerEv.notify (ToBehavior.close 0) ∈
      (on_behaviour_event hOpening (FromBehavior.close 0)).pending_events :=
  ⟨((c6_close_event hOpening 0 (by decide)).1 false false rfl).1,
    ((c6_close_event hOpening 0 (by decide)).1 false false rfl).2,
    (c6_close_event hOpening 0 (by decide)).2⟩

/-- C7.  `connection_keep_alive` returns `Yes` exactly when some protocol of
the handler is in a state other than `Closed`. -/
theorem c7_keep_alive_iff (h : Handler) :
    connection_keep_alive h = KeepAliveR.yes ↔
      ∃ p ∈ h.protocols, p.isClosed = false := by
  unfold connection_keep_alive
  split
  · rename_i hc
    simp only [List.any_eq_true, Bool.not_eq_true'] at hc
    exact iff_of_true rfl hc
  · rename_i hc
    simp only [List.any_eq_true, Bool.not_eq_true'] at hc
    exact iff_of_false (by simp) hc

/-- C8.  `to_ss58` computes `ident = version AND 0x3FFF`, prepends the
single byte `ident` when `ident ≤ 63` and the two-byte prefix of §4.4
otherwise, and returns the Base58 encoding of
`prefix ++ pubkey ++ (Blake2b-512 of SS58PRE ++ prefix ++ pubkey).take 2`;
in particular `ident = 63` yields the one-byte prefix `[63]` and
`ident = 64` the two-byte prefix `[80, 0]`. -/
theorem c8_to_ss58_spec (blake : List Nat → List Nat)
    (b58 : List Nat → String) (key : Pub) (version : Nat) :
    to_ss58 blake b58 key version =
      b58 ((ss58PrefixSpec version ++ key) ++
        (blake (SS58PRE ++ (ss58PrefixSpec version ++ key))).take 2) ∧
    ss58PrefixSpec 63 = [63] ∧
    ss58PrefixSpec 64 = [80, 0] :=
  ⟨rfl, by decide, by decide⟩

/-- C9.  The report loop's `.expect("All must have valid peerIDs")` is
reachable: in the reachable state `sMixed` the stored address set's first
element has no terminal `P2p` segment (the record codec only requires the
addresses carrying such a segment to agree), so `get_peer_id` returns
`none` and the source panics. -/
theorem c9_expect_panic_reachable :
    Reachable envMixed sMixed ∧
    (report_authority blakeZ b58Z 0 sMixed [0]).isPanicNoPeerId = true :=
  ⟨Reachable.step (Reachable.started [[0]])
      (EngineStep.swarm (advance_dht_queries envMixed (EngineState.new [[0]]))
        (SwarmEv.getRecordFound 0 0 [9])),
    by decide⟩

/-- C10.  At every quiescent point, every address set stored in
`authority_to_details` is non-empty, and consequently the report branch
printing `No addresses found in DHT record` is never taken. -/
theorem c10_details_nonempty (env : Env) (s : EngineState)
    (blake : List Nat → List Nat) (b58 : List Nat → String) (version : Nat)
    (a : Pub) (p : Pub × List Multiaddr) (hr : Reachable env s)
    (hp : p ∈ s.authority_to_details) :
    p.2 ≠ [] ∧
    (report_authority blake b58 version s a).isNoAddresses = false :=
  ⟨(reachable_inv hr).2.2 p hp,
    report_not_noAddresses (reachable_inv hr).2.2 blake b58 version a⟩

/-- C10 at the concrete reachable state `sAccept2`. -/
theorem c10_witness :
    (([0], [[MSeg.p2p 7]]) : Pub × List Multiaddr).2 ≠ [] ∧
    (report_authority blakeZ b58Z 0 sAccept2 [0]).isNoAddresses = false :=
  c10_details_nonempty envAccept sAccept2 blakeZ b58Z 0 [0] ([0], [[MSeg.p2p 7]])
    (Reachable.step
      (Reachable.step (Reachable.started [[0]])
        (EngineStep.swarm sAccept0 (SwarmEv.getRecordFound 0 0 [9])))
      (EngineStep.swarm sAccept1 (SwarmEv.identified 7 { agent_version := "node/1.0" })))
    (by decide)
